import Mathlib

/-!
Verification of the debounce-gate mechanism of the log-debounce crate.

The crate exposes ten macros, `<level>_debounce` and `<level>_once` for the
five severity levels trace, debug, info, warn and error.  Every `_debounce`
macro has the same body: a per-callsite `Mutex<Option<Instant>>` is locked;
on success the gate computes
  should_log = last.map(|l| now.duration_since(l) >= duration).unwrap_or(true)
and, when `should_log` holds, stores `Some(now)` and calls the logging sink
with the formatting arguments.  Every `_once` macro delegates to the
corresponding `_debounce` macro with `Duration::MAX`.

Embedding choices:
* Timestamps (`Instant`) and durations are nanosecond counts in `Nat`.
  Rust `Instant::duration_since` returns zero when the argument is later
  than `self`, which is exactly truncated subtraction on `Nat`.
* `Duration::MAX` is `u64::MAX` seconds plus `999_999_999` nanoseconds.
  A Rust `Instant` holds at most `i64::MAX` seconds, so every valid
  instant, measured in nanoseconds, is below `instantBound`, which is
  itself below `durationMAX`.
* The poisoned-mutex branch of `LAST.lock()` is modelled by `LockState`:
  the whole macro body is inside `if let Ok(..)`, so a poisoned lock skips
  everything.
* A macro invocation is modelled as a state-passing function on the stored
  `Option Nat`; the result records whether the formatting arguments were
  evaluated and whether the sink was called.
-/

namespace LogDebounce

/-- Nanoseconds in Duration::MAX: u64::MAX seconds plus 999999999 ns. -/
def durationMAX : Nat := (2 ^ 64 - 1) * 1000000000 + 999999999

/-- Strict upper bound, in nanoseconds, on any representable Instant
(at most i64::MAX seconds plus sub-second nanoseconds). -/
def instantBound : Nat := 2 ^ 63 * 1000000000

/-- The gate logic shared by all `_debounce` macros (the body of the
`Ok` branch): decide `should_log`, and store `Some(now)` when it holds.
Returns the decision together with the new stored value. -/
def tryAcquire (d now : Nat) (last : Option Nat) : Bool × Option Nat :=
  let should_log := (last.map (fun l => decide (d ≤ now - l))).getD true
  if should_log then (true, some now) else (false, last)

/-- State of the per-callsite mutex: healthy, or poisoned by a prior
panic while held. -/
inductive LockState where
  | ok : LockState
  | poisoned : LockState
deriving DecidableEq

/-- Observable outcome of one macro invocation: whether the formatting
arguments were evaluated, whether the sink was called, and the stored
timestamp after the call. -/
structure CallResult where
  argsEvaluated : Bool
  emitted : Bool
  last : Option Nat
deriving DecidableEq

/-- Body of the `info_debounce` macro.  When the lock is poisoned the
`if let Ok` test fails and nothing happens.  Otherwise the gate decides;
on `should_log` the timestamp is stored and `log::info!(args)` runs,
which is the only place the formatting arguments are evaluated. -/
def info_debounce (lock : LockState) (d now : Nat) (last : Option Nat) :
    CallResult :=
  match lock with
  | .poisoned => ⟨false, false, last⟩
  | .ok =>
    let should_log := (last.map (fun l => decide (d ≤ now - l))).getD true
    if should_log then ⟨true, true, some now⟩ else ⟨false, false, last⟩

/-- Body of the `warn_debounce` macro (textually identical gate). -/
def warn_debounce (lock : LockState) (d now : Nat) (last : Option Nat) :
    CallResult :=
  match lock with
  | .poisoned => ⟨false, false, last⟩
  | .ok =>
    let should_log := (last.map (fun l => decide (d ≤ now - l))).getD true
    if should_log then ⟨true, true, some now⟩ else ⟨false, false, last⟩

/-- Body of the `error_debounce` macro (textually identical gate). -/
def error_debounce (lock : LockState) (d now : Nat) (last : Option Nat) :
    CallResult :=
  match lock with
  | .poisoned => ⟨false, false, last⟩
  | .ok =>
    let should_log := (last.map (fun l => decide (d ≤ now - l))).getD true
    if should_log then ⟨true, true, some now⟩ else ⟨false, false, last⟩

/-- Body of the `debug_debounce` macro (textually identical gate). -/
def debug_debounce (lock : LockState) (d now : Nat) (last : Option Nat) :
    CallResult :=
  match lock with
  | .poisoned => ⟨false, false, last⟩
  | .ok =>
    let should_log := (last.map (fun l => decide (d ≤ now - l))).getD true
    if should_log then ⟨true, true, some now⟩ else ⟨false, false, last⟩

/-- Body of the `trace_debounce` macro (textually identical gate). -/
def trace_debounce (lock : LockState) (d now : Nat) (last : Option Nat) :
    CallResult :=
  match lock with
  | .poisoned => ⟨false, false, last⟩
  | .ok =>
    let should_log := (last.map (fun l => decide (d ≤ now - l))).getD true
    if should_log then ⟨true, true, some now⟩ else ⟨false, false, last⟩

/-- `info_once!(args)` expands to `info_debounce!(Duration::MAX, args)`. -/
def info_once (lock : LockState) (now : Nat) (last : Option Nat) :
    CallResult :=
  info_debounce lock durationMAX now last

/-- `warn_once!(args)` expands to `warn_debounce!(Duration::MAX, args)`. -/
def warn_once (lock : LockState) (now : Nat) (last : Option Nat) :
    CallResult :=
  warn_debounce lock durationMAX now last

/-- `error_once!(args)` expands to `error_debounce!(Duration::MAX, args)`. -/
def error_once (lock : LockState) (now : Nat) (last : Option Nat) :
    CallResult :=
  error_debounce lock durationMAX now last

/-- `debug_once!(args)` expands to `debug_debounce!(Duration::MAX, args)`. -/
def debug_once (lock : LockState) (now : Nat) (last : Option Nat) :
    CallResult :=
  debug_debounce lock durationMAX now last

/-- `trace_once!(args)` expands to `trace_debounce!(Duration::MAX, args)`. -/
def trace_once (lock : LockState) (now : Nat) (last : Option Nat) :
    CallResult :=
  trace_debounce lock durationMAX now last

/-- Run a sequence of gate calls with one shared interval `d`, threading
the stored timestamp; returns the list of decisions and the final state. -/
def runCalls (d : Nat) (nows : List Nat) (last : Option Nat) :
    List Bool × Option Nat :=
  match nows with
  | [] => ([], last)
  | n :: rest =>
    let step := tryAcquire d n last
    let tail := runCalls d rest step.2
    (step.1 :: tail.1, tail.2)

/-- The stored timestamp after each call of a sequence of gate calls. -/
def stateTrace (d : Nat) (nows : List Nat) (last : Option Nat) :
    List (Option Nat) :=
  match nows with
  | [] => []
  | n :: rest =>
    let s := (tryAcquire d n last).2
    s :: stateTrace d rest s

/-- The `now` arguments of exactly those calls of a sequence that
proceed (return true). -/
def proceedTimes (d : Nat) (nows : List Nat) (last : Option Nat) :
    List Nat :=
  match nows with
  | [] => []
  | n :: rest =>
    let step := tryAcquire d n last
    if step.1 then n :: proceedTimes d rest step.2
    else proceedTimes d rest step.2

/-- Order on stored timestamps: absent is below everything, present
values compare as naturals.  Used to state monotonicity of the stored
timestamp. -/
def optLe (a b : Option Nat) : Prop :=
  match a, b with
  | none, _ => True
  | some _, none => False
  | some x, some y => x ≤ y

instance optLe.dec : ∀ a b, Decidable (optLe a b)
  | none, _ => isTrue trivial
  | some _, none => isFalse (fun h => h)
  | some x, some y => inferInstanceAs (Decidable (x ≤ y))

instance optLe.trans : IsTrans (Option Nat) optLe where
  trans a b c hab hbc := by
    cases a with
    | none => trivial
    | some x =>
      cases b with
      | none => exact absurd hab (fun h => h)
      | some y =>
        cases c with
        | none => exact absurd hbc (fun h => h)
        | some z => exact Nat.le_trans hab hbc

lemma tryAcquire_none (d now : Nat) : tryAcquire d now none = (true, some now) :=
  rfl

lemma tryAcquire_some_of_ge (d now t : Nat) (h : d ≤ now - t) :
    tryAcquire d now (some t) = (true, some now) := by
  simp [tryAcquire, h]

lemma tryAcquire_some_of_lt (d now t : Nat) (h : now - t < d) :
    tryAcquire d now (some t) = (false, some t) := by
  have hn : ¬ d ≤ now - t := Nat.not_le.mpr h
  simp [tryAcquire, hn]

lemma runCalls_all_suppressed (d t : Nat) (nows : List Nat)
    (h : ∀ n ∈ nows, n - t < d) :
    runCalls d nows (some t) = (List.replicate nows.length false, some t) := by
  induction nows with
  | nil => rfl
  | cons n rest ih =>
    have hn : n - t < d := h n (by simp)
    have hrest : ∀ m ∈ rest, m - t < d := fun m hm => h m (by simp [hm])
    simp [runCalls, tryAcquire_some_of_lt d n t hn, ih hrest,
      List.replicate_succ]

lemma proceedTimes_nil_of_suppressed (d t : Nat) (nows : List Nat)
    (h : ∀ n ∈ nows, n - t < d) :
    proceedTimes d nows (some t) = [] := by
  induction nows with
  | nil => rfl
  | cons n rest ih =>
    have hn : n - t < d := h n (by simp)
    have hrest : ∀ m ∈ rest, m - t < d := fun m hm => h m (by simp [hm])
    simp [proceedTimes, tryAcquire_some_of_lt d n t hn, ih hrest]

lemma pairwise_of_rel_total {R : Nat → Nat → Prop} (hR : ∀ a b, R a b) :
    ∀ l : List Nat, List.Pairwise R l
  | [] => List.Pairwise.nil
  | a :: l => List.Pairwise.cons (fun b _ => hR a b) (pairwise_of_rel_total hR l)

lemma proceedTimes_lower (d : Nat) (hd : 0 < d) :
    ∀ (nows : List Nat) (t x : Nat),
      x ∈ proceedTimes d nows (some t) → t + d ≤ x := by
  intro nows
  induction nows with
  | nil => intro t x hx; simp [proceedTimes] at hx
  | cons n rest ih =>
    intro t x hx
    by_cases hc : d ≤ n - t
    · have htn : t + d ≤ n := by omega
      rw [proceedTimes, tryAcquire_some_of_ge d n t hc] at hx
      simp at hx
      rcases hx with hx | hx
      · omega
      · have := ih n x hx
        omega
    · have hlt : n - t < d := Nat.lt_of_not_le hc
      rw [proceedTimes, tryAcquire_some_of_lt d n t hlt] at hx
      simp at hx
      exact ih t x hx

lemma proceedTimes_pairwise_sep (d : Nat) (hd : 0 < d) :
    ∀ (nows : List Nat) (last : Option Nat),
      List.Pairwise (fun a b => a + d ≤ b) (proceedTimes d nows last) := by
  intro nows
  induction nows with
  | nil => intro last; exact List.Pairwise.nil
  | cons n rest ih =>
    intro last
    cases last with
    | none =>
      rw [proceedTimes, tryAcquire_none]
      simp only
      exact List.Pairwise.cons (fun x hx => proceedTimes_lower d hd rest n x hx)
        (ih (some n))
    | some t =>
      by_cases hc : d ≤ n - t
      · rw [proceedTimes, tryAcquire_some_of_ge d n t hc]
        simp only
        exact List.Pairwise.cons (fun x hx => proceedTimes_lower d hd rest n x hx)
          (ih (some n))
      · have hlt : n - t < d := Nat.lt_of_not_le hc
        rw [proceedTimes, tryAcquire_some_of_lt d n t hlt]
        simp only
        exact ih (some t)

lemma stateTrace_chain (d : Nat) :
    ∀ (nows : List Nat) (t : Nat), List.Pairwise (· ≤ ·) nows →
      (∀ n ∈ nows, t ≤ n) →
      List.Chain' optLe (some t :: stateTrace d nows (some t)) := by
  intro nows
  induction nows with
  | nil => intro t _ _; exact List.chain'_singleton (some t)
  | cons n rest ih =>
    intro t hp hb
    obtain ⟨hn, hrest⟩ := List.pairwise_cons.mp hp
    have htn : t ≤ n := hb n (by simp)
    by_cases hc : d ≤ n - t
    · rw [stateTrace, tryAcquire_some_of_ge d n t hc]
      simp only
      exact List.chain'_cons.mpr ⟨htn, ih n hrest hn⟩
    · have hlt : n - t < d := Nat.lt_of_not_le hc
      rw [stateTrace, tryAcquire_some_of_lt d n t hlt]
      simp only
      refine List.chain'_cons.mpr ⟨Nat.le_refl t, ?_⟩
      exact ih t hrest (fun m hm => hb m (by simp [hm]))

/-- C1: from a fresh gate, the two-call sequence at times t0 then t1 > t0
with interval d returns true on the first call, and true on the second
call exactly when the elapsed time t1 - t0 is at least d. -/
theorem debounce_window_decision (d t0 t1 : Nat) (h : t0 < t1) :
    (runCalls d [t0, t1] none).1 = [true, decide (d ≤ t1 - t0)] := by
  by_cases hc : d ≤ t1 - t0
  · simp [runCalls, tryAcquire, hc]
  · simp [runCalls, tryAcquire, hc]

theorem debounce_window_decision_witness :
    ((0 : Nat) < 3 ∧ (runCalls 5 [0, 3] none).1 = [true, decide ((5 : Nat) ≤ 3 - 0)]) ∧
    ((0 : Nat) < 7 ∧ (runCalls 5 [0, 7] none).1 = [true, decide ((5 : Nat) ≤ 7 - 0)]) :=
  ⟨⟨by decide, debounce_window_decision 5 0 3 (by decide)⟩,
   ⟨by decide, debounce_window_decision 5 0 7 (by decide)⟩⟩

/-- C2: on a fresh gate (stored timestamp absent) every first call
returns true, for every interval d including durationMAX, and leaves the
gate armed at the call time. -/
theorem first_call_always_proceeds :
    ∀ (d now : Nat), tryAcquire d now none = (true, some now) :=
  fun _ _ => rfl

/-- C3: a suppressed call (elapsed time below the interval) returns
false and leaves the stored timestamp exactly as it was. -/
theorem suppressed_call_no_state_change (d t now : Nat) (h : now - t < d) :
    tryAcquire d now (some t) = (false, some t) :=
  tryAcquire_some_of_lt d now t h

theorem suppressed_call_no_state_change_witness :
    (3 : Nat) - 0 < 10 ∧ tryAcquire 10 3 (some 0) = (false, some 0) :=
  ⟨by decide, suppressed_call_no_state_change 10 0 3 (by decide)⟩

/-- C5: for every severity level, the once form equals the debounce form
applied to durationMAX, on every lock state, call time and gate state. -/
theorem once_is_debounce_with_max :
    (∀ (lock : LockState) (now : Nat) (last : Option Nat),
      info_once lock now last = info_debounce lock durationMAX now last) ∧
    (∀ (lock : LockState) (now : Nat) (last : Option Nat),
      warn_once lock now last = warn_debounce lock durationMAX now last) ∧
    (∀ (lock : LockState) (now : Nat) (last : Option Nat),
      error_once lock now last = error_debounce lock durationMAX now last) ∧
    (∀ (lock : LockState) (now : Nat) (last : Option Nat),
      debug_once lock now last = debug_debounce lock durationMAX now last) ∧
    (∀ (lock : LockState) (now : Nat) (last : Option Nat),
      trace_once lock now last = trace_debounce lock durationMAX now last) :=
  ⟨fun _ _ _ => rfl, fun _ _ _ => rfl, fun _ _ _ => rfl,
   fun _ _ _ => rfl, fun _ _ _ => rfl⟩

/-- C6: with a poisoned lock, every macro performs no emission, evaluates
no arguments, leaves the stored timestamp unchanged, and returns normally
to the caller (the embedding is a total function). -/
theorem poisoned_lock_fail_safe :
    ∀ (d now : Nat) (last : Option Nat),
      info_debounce .poisoned d now last = ⟨false, false, last⟩ ∧
      warn_debounce .poisoned d now last = ⟨false, false, last⟩ ∧
      error_debounce .poisoned d now last = ⟨false, false, last⟩ ∧
      debug_debounce .poisoned d now last = ⟨false, false, last⟩ ∧
      trace_debounce .poisoned d now last = ⟨false, false, last⟩ :=
  fun _ _ _ => ⟨rfl, rfl, rfl, rfl, rfl⟩

/-- C8 counterexample: a concrete suppressed call (healthy lock, armed at
time 1, called again at time 1 with interval 1) emits nothing and does
NOT evaluate its formatting arguments, refuting the claim that arguments
are evaluated on every call regardless of the gate outcome. -/
theorem eager_args_counterexample :
    (info_debounce .ok 1 1 (some 1)).emitted = false ∧
    (info_debounce .ok 1 1 (some 1)).argsEvaluated = false := by
  decide

/-- C8 amended: for every severity level, the formatting arguments are
evaluated exactly when the call emits; a suppressed (or lock-poisoned)
call evaluates neither the arguments nor the sink. -/
theorem args_evaluated_iff_emitted :
    ∀ (lock : LockState) (d now : Nat) (last : Option Nat),
      (info_debounce lock d now last).argsEvaluated
        = (info_debounce lock d now last).emitted ∧
      (warn_debounce lock d now last).argsEvaluated
        = (warn_debounce lock d now last).emitted ∧
      (error_debounce lock d now last).argsEvaluated
        = (error_debounce lock d now last).emitted ∧
      (debug_debounce lock d now last).argsEvaluated
        = (debug_debounce lock d now last).emitted ∧
      (trace_debounce lock d now last).argsEvaluated
        = (trace_debounce lock d now last).emitted := by
  intro lock d now last
  cases lock with
  | poisoned => exact ⟨rfl, rfl, rfl, rfl, rfl⟩
  | ok =>
    refine ⟨?_, ?_, ?_, ?_, ?_⟩ <;>
      simp only [info_debounce, warn_debounce, error_debounce,
        debug_debounce, trace_debounce] <;>
      split <;> rfl

/-- C10: with the stored timestamp in the future of the call time (clock
observed to go backward), elapsed time saturates to zero, so the call
suppresses and keeps the state for every positive interval, and proceeds
(recording the earlier time) exactly when the interval is zero. -/
theorem backward_clock_clamp (d t now : Nat) (h : now < t) :
    (0 < d → tryAcquire d now (some t) = (false, some t)) ∧
    (d = 0 → tryAcquire d now (some t) = (true, some now)) := by
  constructor
  · intro hd
    have hlt : now - t < d := by omega
    exact tryAcquire_some_of_lt d now t hlt
  · intro hd
    subst hd
    exact tryAcquire_some_of_ge 0 now t (Nat.zero_le _)

theorem backward_clock_clamp_witness :
    ((3 : Nat) < 5 ∧ tryAcquire 7 3 (some 5) = (false, some 5)) ∧
    ((3 : Nat) < 5 ∧ tryAcquire 0 3 (some 5) = (true, some 3)) :=
  ⟨⟨by decide, (backward_clock_clamp 7 5 3 (by decide)).1 (by decide)⟩,
   ⟨by decide, (backward_clock_clamp 0 5 3 (by decide)).2 rfl⟩⟩

/-- C4: with interval durationMAX, the first call on a fresh gate returns
true, and every subsequent call at any representable instant (bounded by
instantBound) returns false: elapsed time can never reach durationMAX. -/
theorem once_mode_permanent (t0 : Nat) (nows : List Nat)
    (h : ∀ n ∈ nows, n < instantBound) :
    (tryAcquire durationMAX t0 none).1 = true ∧
    (runCalls durationMAX nows (some t0)).1
      = List.replicate nows.length false := by
  refine ⟨rfl, ?_⟩
  have hbd : instantBound < durationMAX := by decide
  have hall : ∀ n ∈ nows, n - t0 < durationMAX := by
    intro n hn
    have h1 : n < instantBound := h n hn
    have h2 : n - t0 ≤ n := Nat.sub_le n t0
    omega
  rw [runCalls_all_suppressed durationMAX t0 nows hall]

theorem once_mode_permanent_witness :
    (∀ n ∈ ([5, 100, 7] : List Nat), n < instantBound) ∧
    ((tryAcquire durationMAX 3 none).1 = true ∧
      (runCalls durationMAX [5, 100, 7] (some 3)).1
        = List.replicate ([5, 100, 7] : List Nat).length false) :=
  ⟨by decide, once_mode_permanent 3 [5, 100, 7] (by decide)⟩

/-- C7: over any run with non-decreasing call times starting from a fresh
gate, the stored timestamp is monotonically non-decreasing (absent below
everything), and a call that returns false never changes the stored
timestamp. -/
theorem last_emission_monotone (d : Nat) (nows : List Nat)
    (h : List.Pairwise (· ≤ ·) nows) :
    List.Pairwise optLe (none :: stateTrace d nows none) ∧
    (∀ (e now : Nat) (last : Option Nat),
      (tryAcquire e now last).1 = false → (tryAcquire e now last).2 = last) := by
  constructor
  · rw [← List.chain'_iff_pairwise]
    cases nows with
    | nil => exact List.chain'_singleton none
    | cons n rest =>
      obtain ⟨hn, hrest⟩ := List.pairwise_cons.mp h
      rw [stateTrace, tryAcquire_none]
      simp only
      exact List.chain'_cons.mpr ⟨trivial, stateTrace_chain d rest n hrest hn⟩
  · intro e now last hfalse
    cases last with
    | none => simp [tryAcquire] at hfalse
    | some t =>
      by_cases hc : e ≤ now - t
      · rw [tryAcquire_some_of_ge e now t hc] at hfalse
        simp at hfalse
      · rw [tryAcquire_some_of_lt e now t (Nat.lt_of_not_le hc)]

theorem last_emission_monotone_witness :
    List.Pairwise (fun a b => a ≤ b) ([1, 2, 2, 9] : List Nat) ∧
    List.Pairwise optLe (none :: stateTrace 3 [1, 2, 2, 9] none) :=
  ⟨by decide, (last_emission_monotone 3 [1, 2, 2, 9] (by decide)).1⟩

/-- C9: the mutex makes each check-and-update atomic, so a concurrent run
is some sequential order of the calls; for every such order from a fresh
gate, any two proceeding calls have times at least d apart, and when all
call times lie strictly within d of one another, exactly one call of a
nonempty run returns true. -/
theorem concurrent_calls_exclusion (d : Nat) (nows : List Nat) :
    List.Pairwise (fun a b => d ≤ max a b - min a b)
      (proceedTimes d nows none) ∧
    (nows ≠ [] → (∀ a ∈ nows, ∀ b ∈ nows, max a b - min a b < d) →
      (proceedTimes d nows none).length = 1) := by
  constructor
  · rcases Nat.eq_zero_or_pos d with hd | hd
    · subst hd
      exact pairwise_of_rel_total (fun a b => Nat.zero_le _) _
    · exact (proceedTimes_pairwise_sep d hd nows none).imp
        (fun {a b} hab => by omega)
  · intro hne hclose
    cases nows with
    | nil => exact absurd rfl hne
    | cons n rest =>
      rw [proceedTimes, tryAcquire_none]
      simp only
      have hsupp : ∀ m ∈ rest, m - n < d := by
        intro m hm
        have := hclose m (by simp [hm]) n (by simp)
        omega
      rw [proceedTimes_nil_of_suppressed d n rest hsupp]
      simp

theorem concurrent_calls_exclusion_witness :
    ([0, 1, 2] : List Nat) ≠ [] ∧
    (∀ a ∈ ([0, 1, 2] : List Nat), ∀ b ∈ ([0, 1, 2] : List Nat),
      max a b - min a b < 5) ∧
    (proceedTimes 5 [0, 1, 2] none).length = 1 :=
  ⟨by decide, by decide,
    (concurrent_calls_exclusion 5 [0, 1, 2]).2 (by decide) (by decide)⟩

end LogDebounce
